import Mathlib

/-!
Verification of the Hirelytic retrieval-and-response pipeline.

This file gives a shallow embedding of the core of the repository
(`RAG systeme/hr_assistant.py`, `RAG systeme/faiss_store.py`,
`RAG systeme/ask_query.py`, `RAG systeme/llama_inference.py`,
`RAG systeme/database.py`) and proves or refutes the specified
properties of query processing, intent classification, result-count
extraction, similarity ranking, prompt composition, conversation
history management and error handling.

Modelling conventions:
* Python values that flow through the JSON-like summary records are
  modelled by the inductive type `PyVal`; Python exceptions by the
  `Except PyErr` monad.
* Machine floats (embedding coordinates and cosine-similarity scores)
  are modelled by rationals; the external embedding model and the
  external cosine-similarity computation are parameters (`SearchEnv`),
  since they are external collaborators of the core.
* The external Ollama HTTP service is modelled by `OllamaEnv`, which
  fixes the observable outcome of each HTTP interaction.
* Database tables are modelled by in-memory lists of rows; the SQL
  `WHERE user_id = $1` clauses become list filters.
-/

/-- Python exceptions that the embedded code can raise. -/
inductive PyErr where
  | typeError
  | valueError
  | attributeError
  | uncaught (msg : String)
deriving DecidableEq, Repr

/-- JSON-like Python values (the shape of parsed `summary_json` records). -/
inductive PyVal where
  | none
  | bool (b : Bool)
  | int (n : Int)
  | str (s : String)
  | list (items : List PyVal)
  | dict (entries : List (String × PyVal))

/-- Python truthiness (`if v:`): empty containers, empty strings, zero,
`False` and `None` are falsy. -/
def pyTruthy : PyVal → Bool
  | .none => false
  | .bool b => b
  | .int n => n != 0
  | .str s => s != ""
  | .list items => !items.isEmpty
  | .dict entries => !entries.isEmpty

/-- `d.get(k, default)` on a Python dict (first binding wins, as in a
well-formed dict where keys are unique). -/
def pyGetD (entries : List (String × PyVal)) (k : String) (d : PyVal) : PyVal :=
  match entries.find? (fun e => e.1 == k) with
  | some e => e.2
  | Option.none => d

mutual

/-- Python `str(v)` as used by f-string interpolation. Atoms are rendered
faithfully; container rendering is a simplified model of Python `repr`
(element quoting is omitted), which no verified property depends on. -/
def pyStr : PyVal → String
  | .none => "None"
  | .bool b => if b then "True" else "False"
  | .int n => toString n
  | .str s => s
  | .list items => "[" ++ String.intercalate ", " (pyStrList items) ++ "]"
  | .dict entries => "\x7b" ++ String.intercalate ", " (pyStrEntries entries) ++ "\x7d"

def pyStrList : List PyVal → List String
  | [] => []
  | v :: vs => pyStr v :: pyStrList vs

def pyStrEntries : List (String × PyVal) → List String
  | [] => []
  | e :: es => (e.1 ++ ": " ++ pyStr e.2) :: pyStrEntries es

end

/-- Python `", ".join(items)`: raises `TypeError` when an item is not a
string. -/
def pyJoin (sep : String) (items : List PyVal) : Except PyErr String :=
  match items with
  | [] => .ok ""
  | .str s :: rest =>
    match pyJoin sep rest with
    | .ok tail => .ok (if rest.isEmpty then s else s ++ sep ++ tail)
    | .error e => .error e
  | _ :: _ => .error .typeError

/-- Python `v[:n]` on a JSON-like value: slices lists and strings (a
sliced string yields its characters, each a one-character string), and
raises `TypeError` on any other value. -/
def pySliceTake (n : Nat) : PyVal → Except PyErr (List PyVal)
  | .list items => .ok (items.take n)
  | .str s => .ok ((s.data.take n).map (fun c => .str (String.singleton c)))
  | _ => .error .typeError

/-- The whitespace characters stripped by Python `str.strip()` (ASCII part). -/
def isPySpace (c : Char) : Bool :=
  c = ' ' || c = '\t' || c = '\n' || c = '\r' || c = '\x0b' || c = '\x0c'

/-- Python `s.strip()`. -/
def pyStrip (s : String) : String :=
  ⟨((s.data.dropWhile isPySpace).reverse.dropWhile isPySpace).reverse⟩

/-- Python `s.lower()` (ASCII model, matching `Char.toLower`). -/
def pyLower (s : String) : List Char :=
  s.data.map Char.toLower

/-- Does `needle` occur as a contiguous run of `haystack`? -/
def containsSub (needle : List Char) : List Char → Bool
  | [] => needle.isEmpty
  | c :: rest => needle.isPrefixOf (c :: rest) || containsSub needle rest

/-- Python `needle in haystack` on strings (substring test). -/
def pyInStr (needle : String) (haystack : List Char) : Bool :=
  containsSub needle.data haystack

/-- Python `s[:n]` on a string. -/
def strTake (n : Nat) (s : String) : String :=
  ⟨s.data.take n⟩

/-- Python `lst[-n:]` for `n > 0`: the last `n` elements. -/
def takeLast (n : Nat) (l : List α) : List α :=
  l.drop (l.length - n)

/-- Python `lst[-n:]` for a possibly-zero `n`: `lst[-0:]` is the whole
list (`-0 == 0`), not the empty list. -/
def pySliceLast (n : Nat) (l : List α) : List α :=
  if n = 0 then l else takeLast n l

/-!
## `llama_inference.py`: the Ollama client

`OllamaClient.generate` and `run_llama` are embedded over an abstract
environment fixing the observable outcome of each HTTP interaction.
-/

/-- Result of parsing an HTTP response body as JSON (`response.json()`). -/
inductive JsonParse where
  | malformed
  | val (v : PyVal)

/-- Outcome of `requests.post(f"{api_url}/generate", ...)`:
an HTTP response with status, raw text and parsed body, a timeout, a
`requests.RequestException`, or an exception outside the caught classes. -/
inductive GenOutcome where
  | resp (status : Nat) (text : String) (body : JsonParse)
  | timeout
  | reqExn (msg : String)
  | otherExn (msg : String)

/-- The external Ollama service, as observed by one pipeline invocation:
whether `GET /api/tags` answers 200 (`is_available`), the model list
returned by `get_available_models` (empty on failure), and the outcome
of `POST /api/generate` for each prompt. -/
structure OllamaEnv where
  available : Bool
  models : List String
  gen : String → GenOutcome

/-- Python `str(list_of_strings)`, as interpolated into the
model-not-found message. -/
def pyListRepr (l : List String) : String :=
  "[" ++ String.intercalate ", " (l.map (fun m => "'" ++ m ++ "'")) ++ "]"

/-- `OllamaClient.check_model_available` via `get_available_models`:
`any(model_name in model for model in models)`. -/
def check_model_available (env : OllamaEnv) (model_name : String) : Bool :=
  env.models.any (fun model => pyInStr model_name model.data)

/-- `OllamaClient.generate`: POST to `/api/generate` with the enumerated
failure modes caught and converted to `"Error: ..."` strings; exceptions
outside the caught classes (and `.strip()` on a non-string JSON field)
propagate. -/
def OllamaClient.generate (env : OllamaEnv) (prompt : String) : Except PyErr String :=
  match env.gen prompt with
  | .timeout => .ok "Error: Request timed out (5 minutes)"
  | .reqExn msg => .ok ("Error: Network request failed - " ++ msg)
  | .otherExn msg => .error (.uncaught msg)
  | .resp status text body =>
    if status = 200 then
      match body with
      | .malformed => .ok "Error: Invalid JSON response from Ollama"
      | .val (.dict m) =>
        match pyGetD m "response" (.str "") with
        | .str s => .ok (pyStrip s)
        | _ => .error .attributeError
      | .val _ => .error .attributeError
    else
      .ok ("Error: HTTP " ++ toString status ++ " - " ++ text)

/-- `run_llama`: availability and model checks, then `generate`. The
`max_tokens`/`temperature`/`**kwargs` options only populate the request
payload and do not influence the modelled outcome. -/
def run_llama (env : OllamaEnv) (prompt : String) (model : String := "llama3.2:3b") :
    Except PyErr String :=
  if !env.available then
    .ok "Error: Ollama server is not running. Please start Ollama first."
  else if !check_model_available env model then
    .ok ("Error: Model '" ++ model ++ "' not found. Available models: " ++
      pyListRepr env.models)
  else
    OllamaClient.generate env prompt

/-!
## Intent classification and result-count extraction

`HRAssistant.is_cv_search_query`, `HRAssistant.needs_context`,
`HRAssistant.extract_cv_count` (in `hr_assistant.py`) and
`extract_cv_count_from_query` (in `ask_query.py`).
-/

/-- A regex word character (`\w`, ASCII model): letters, digits, underscore. -/
def isWordChar (c : Char) : Bool :=
  c.isAlphanum || c == '_'

/-- The value of a digit run, as `int(...)` reads it. -/
def digitsToNat (ds : List Char) : Nat :=
  ds.foldl (fun n c => n * 10 + (c.toNat - 48)) 0

/-- Is there a word boundary (`\b`) just before a digit at this position?
`prev` is the character before the current position (`none` at the start
of the string). -/
def prevBoundary : Option Char → Bool
  | Option.none => true
  | some p => !isWordChar p

/-- Is there a word boundary (`\b`) just after a digit run whose
remainder of the string is `l`? -/
def afterBoundary : List Char → Bool
  | [] => true
  | d :: _ => !isWordChar d

/-- `re.search(r'\b(\d+)\b', s)` (first match, value of group 1): scans
positions left to right; a position matches when a word boundary
precedes it, it starts a digit run, and the maximal run is followed by a
word boundary (greedy `\d+` cannot backtrack past an internal
digit-digit pair, which is never a boundary). -/
def findIntBB (prev : Option Char) : List Char → Option Nat
  | [] => Option.none
  | c :: rest =>
    if prevBoundary prev && c.isDigit && afterBoundary (rest.dropWhile Char.isDigit) then
      some (digitsToNat (c :: rest.takeWhile Char.isDigit))
    else
      findIntBB (some c) rest

/-- `re.search(r'\b(\d+)', s)` (first match, value of group 1): as
`findIntBB` but with no trailing boundary requirement. -/
def findIntB (prev : Option Char) : List Char → Option Nat
  | [] => Option.none
  | c :: rest =>
    if prevBoundary prev && c.isDigit then
      some (digitsToNat (c :: rest.takeWhile Char.isDigit))
    else
      findIntB (some c) rest

/-- `HRAssistant.is_cv_search_query`: keyword-based intent detection. -/
def is_cv_search_query (query : String) : Bool :=
  let keywords := ["find", "show", "get", "best", "top", "candidates", "profiles",
    "cvs", "resumes", "engineers", "developers", "skills", "experience",
    "python", "java", "mechanical", "electrical", "software", "who"]
  let query_lower := pyLower query
  keywords.any (fun keyword => pyInStr keyword query_lower)

/-- `HRAssistant.needs_context`: referential-marker detection. -/
def needs_context (query : String) : Bool :=
  let context_indicators := ["that", "this", "them", "those", "previous", "earlier",
    "before", "also", "too", "more", "another", "what about", "how about"]
  let query_lower := pyLower query
  context_indicators.any (fun indicator => pyInStr indicator query_lower)

/-- `HRAssistant.extract_cv_count`: explicit `\b(\d+)\b` integer first
(capped at 10), then keyword defaults. -/
def extract_cv_count (query : String) : Nat :=
  let query_lower := pyLower query
  match findIntBB Option.none query_lower with
  | some n => min n 10
  | Option.none =>
    if ["all", "every"].any (fun word => pyInStr word query_lower) then 5
    else if ["one", "single", "best", "top"].any (fun word => pyInStr word query_lower) then 3
    else 4

/-- `ask_query.extract_cv_count_from_query`: explicit `\b(\d+)` integer
first (capped at 10), then its own keyword defaults. -/
def extract_cv_count_from_query (user_query : String) : Nat :=
  let query_lower := pyLower user_query
  match findIntB Option.none query_lower with
  | some n => min n 10
  | Option.none =>
    if ["all", "every"].any (fun word => pyInStr word query_lower) then 10
    else if ["best", "summary"].any (fun word => pyInStr word query_lower) then 5
    else if ["one", "top", "single", "specific"].any (fun word => pyInStr word query_lower) then 1
    else 3

/-!
## `faiss_store.py` / `database.py`: the PostgreSQL vector store

`DatabaseManager.get_user_embeddings` selects `WHERE e.user_id = $1`;
`DatabaseManager.get_cv_by_id` selects `WHERE id = $1 AND user_id = $2`.
Tables are lists of rows in the order the SQL returns them.
-/

/-- A row of `cv_embeddings` joined with `cvs`, as returned by
`get_user_embeddings`. Embedding coordinates are modelled as rationals. -/
structure EmbRow where
  user_id : Nat
  cv_id : Nat
  filename : String
  candidate_name : String
  embedding_text : String
  embedding : List ℚ
deriving DecidableEq

/-- One search result of `search_user_cvs`. -/
structure RankedResult where
  cv_id : Nat
  filename : String
  candidate_name : String
  similarity : ℚ
  embedding_text : String
deriving DecidableEq

/-- The external collaborators of the ranker: `embed_model.get_embedding`
and `sklearn`'s `cosine_similarity`, abstracted as functions into the
rationals (the ranking properties hold for every such pair). -/
structure SearchEnv where
  emb : String → List ℚ
  cosSim : List ℚ → List ℚ → ℚ

/-- `DatabaseManager.get_user_embeddings`: all embedding rows of one
user (`WHERE e.user_id = $1`). -/
def get_user_embeddings (user_id : Nat) (table : List EmbRow) : List EmbRow :=
  table.filter (fun r => r.user_id == user_id)

/-- The result record built for one candidate row inside the
`search_user_cvs` loop. -/
def mkResult (senv : SearchEnv) (query : String) (row : EmbRow) : RankedResult :=
  { cv_id := row.cv_id
    filename := row.filename
    candidate_name := row.candidate_name
    similarity := senv.cosSim (senv.emb query) row.embedding
    embedding_text := row.embedding_text }

/-- The descending-score comparison used by
`results.sort(key=lambda x: x['similarity'], reverse=True)`. -/
def simGE (a b : RankedResult) : Prop :=
  b.similarity ≤ a.similarity

instance : DecidableRel simGE :=
  fun a b => inferInstanceAs (Decidable (b.similarity ≤ a.similarity))

instance : IsTotal RankedResult simGE :=
  ⟨fun a b => le_total b.similarity a.similarity⟩

instance : IsTrans RankedResult simGE :=
  ⟨fun _ _ _ hab hbc => le_trans hbc hab⟩

/-- `PostgreSQLVectorStore.search_user_cvs`: embed the query, score this
user's rows by cosine similarity, sort descending by score, and return
the top `top_k`. Python's `list.sort(..., reverse=True)` is a stable
descending sort; it is modelled by the stable `insertionSort` with the
descending comparison, which produces the identical list. An empty
candidate set returns `[]`. -/
def search_user_cvs (senv : SearchEnv) (user_id : Nat) (query : String)
    (top_k : Nat) (table : List EmbRow) : List RankedResult :=
  let user_embeddings := get_user_embeddings user_id table
  if user_embeddings.isEmpty then []
  else
    let results := user_embeddings.map (mkResult senv query)
    (List.insertionSort simGE results).take top_k

/-- A row of the `cvs` table (only the fields the core reads). -/
structure CvRow where
  id : Nat
  user_id : Nat
  summary_json : Option PyVal

/-- `DatabaseManager.get_cv_by_id`: `WHERE id = $1 AND user_id = $2`. -/
def get_cv_by_id (table : List CvRow) (cv_id : Nat) (user_id : Nat) : Option CvRow :=
  table.find? (fun r => r.id == cv_id && r.user_id == user_id)

/-- `PostgreSQLVectorStore.get_cv_full_summary`: the row's parsed
`summary_json` when present and truthy, else `None`. -/
def get_cv_full_summary (table : List CvRow) (cv_id : Nat) (user_id : Nat) : Option PyVal :=
  match get_cv_by_id table cv_id user_id with
  | some row =>
    match row.summary_json with
    | some v => if pyTruthy v then some v else Option.none
    | Option.none => Option.none
  | Option.none => Option.none

/-!
## `hr_assistant.py`: the orchestrator
-/

/-- The role of one conversation turn. -/
inductive Role where
  | user
  | assistant
deriving DecidableEq

/-- One entry of `conversation_history`. -/
structure Turn where
  role : Role
  content : String
deriving DecidableEq

/-- The mutable state of one `HRAssistant` instance. `__init__` sets
`max_history_length = 10`. -/
structure Assistant where
  user_id : Nat
  conversation_history : List Turn
  max_history_length : Nat := 10
deriving DecidableEq

/-- The `ChatCreate` record saved by `DatabaseManager.save_chat`. -/
structure ChatRecord where
  query : String
  query_type : String
  response_text : String
  cv_results : Option (List RankedResult)
deriving DecidableEq

/-- The in-memory part of `HRAssistant.add_to_history`: push the user
and assistant turns, then keep only the last `2 * max_history_length`
entries when the cap is exceeded. -/
def add_to_history_mem (max_history_length : Nat) (history : List Turn)
    (user_message assistant_response : String) : List Turn :=
  let history := history ++ [⟨.user, user_message⟩, ⟨.assistant, assistant_response⟩]
  if max_history_length * 2 < history.length then
    pySliceLast (max_history_length * 2) history
  else
    history

/-- `HRAssistant.add_to_history`: update the in-memory history and build
the `ChatCreate` record saved to the database (a save failure is caught
and ignored, so only the record itself is modelled). -/
def add_to_history (st : Assistant) (user_message assistant_response : String)
    (cv_results : Option (List RankedResult)) : Assistant × ChatRecord :=
  let newHistory := add_to_history_mem st.max_history_length st.conversation_history
    user_message assistant_response
  let query_type := if is_cv_search_query user_message then "cv_search" else "general_chat"
  ({ st with conversation_history := newHistory },
   { query := user_message
     query_type := query_type
     response_text := assistant_response
     cv_results := if query_type == "cv_search" then cv_results else Option.none })

/-- `HRAssistant.build_history_context`: the last 6 turns, each content
truncated to 100 characters. -/
def build_history_context (history : List Turn) : String :=
  if history.isEmpty then ""
  else
    "Previous conversation:\n" ++
      String.join ((takeLast 6 history).map (fun msg =>
        (if msg.role == Role.user then "User" else "Assistant") ++ ": " ++
          strTake 100 msg.content ++ "...\n")) ++ "\n"

/-- The `edu_list` loop of `HRAssistant.format_cv_summary`: for each of
the (already sliced) education entries that is a dict, keep a truthy
`Degree`, else a truthy `School`. -/
def eduListOf : List PyVal → List PyVal
  | [] => []
  | .dict m :: rest =>
    let degree := pyGetD m "Degree" (.str "")
    let school := pyGetD m "School" (.str "")
    if pyTruthy degree then degree :: eduListOf rest
    else if pyTruthy school then school :: eduListOf rest
    else eduListOf rest
  | _ :: rest => eduListOf rest

/-- The `exp_list` loop of `HRAssistant.format_cv_summary`: for each
experience entry that is a dict, an f-string `"{role} at {company}"`
when both are truthy, else a bare truthy `Role`, else a bare truthy
`Company`. -/
def expListOf : List PyVal → List PyVal
  | [] => []
  | .dict m :: rest =>
    let company := pyGetD m "Company" (.str "")
    let role := pyGetD m "Role" (.str "")
    if pyTruthy role && pyTruthy company then
      .str (pyStr role ++ " at " ++ pyStr company) :: expListOf rest
    else if pyTruthy role then role :: expListOf rest
    else if pyTruthy company then company :: expListOf rest
    else expListOf rest
  | _ :: rest => expListOf rest

/-- The Education block of `HRAssistant.format_cv_summary`: when the
field is truthy, slice it (`[:2]`, raising `TypeError` on a
non-sliceable value), collect the entries, and join them (raising
`TypeError` on a non-string item). -/
def eduSection (eduV : PyVal) (lines : List String) : Except PyErr (List String) :=
  if pyTruthy eduV then do
    let sliced ← pySliceTake 2 eduV
    let edu_list := eduListOf sliced
    if edu_list.isEmpty then pure lines
    else do
      let joined ← pyJoin " | " edu_list
      pure (lines ++ ["Education: " ++ joined])
  else pure lines

/-- The Experience block of `HRAssistant.format_cv_summary`. -/
def expSection (expV : PyVal) (lines : List String) : Except PyErr (List String) :=
  if pyTruthy expV then do
    let sliced ← pySliceTake 2 expV
    let exp_list := expListOf sliced
    if exp_list.isEmpty then pure lines
    else do
      let joined ← pyJoin " | " exp_list
      pure (lines ++ ["Experience: " ++ joined])
  else pure lines

/-- The Skills block of `HRAssistant.format_cv_summary`: a truthy list
is sliced to 10 and joined (non-string items raise); a truthy non-list
is silently skipped. -/
def skillsSection (skillsV : PyVal) (lines : List String) : Except PyErr (List String) :=
  if pyTruthy skillsV then
    match skillsV with
    | .list skills => do
      let joined ← pyJoin ", " (skills.take 10)
      pure (lines ++ ["Skills: " ++ joined])
    | _ => pure lines
  else pure lines

/-- `HRAssistant.format_cv_summary`: format one CV summary record as a
candidate block, field by field. Slicing a non-sliceable field value
and joining non-string items raise `TypeError`, as in Python. -/
def format_cv_summary (cv_summary : List (String × PyVal)) (rank : Nat) :
    Except PyErr String := do
  let lines0 := ["CANDIDATE " ++ toString rank ++ ":"]
  let nameV := pyGetD cv_summary "Name" PyVal.none
  let lines1 := if pyTruthy nameV then lines0 ++ ["Name: " ++ pyStr nameV] else lines0
  let lines2 ← eduSection (pyGetD cv_summary "Education" PyVal.none) lines1
  let lines3 ← expSection (pyGetD cv_summary "Experience" PyVal.none) lines2
  let lines4 ← skillsSection (pyGetD cv_summary "Skills" PyVal.none) lines3
  pure (String.intercalate "\n" lines4 ++ "\n")

/-- The candidate loop of `HRAssistant.build_search_prompt`
(`enumerate(cv_results, 1)` with `load_cv_summary` per result): a falsy
`cv_id` or an absent summary skips the block; a non-dict summary record
raises (`.get` on it has no meaning), and `format_cv_summary` errors
propagate. -/
def formatBlocks (cvTable : List CvRow) (user_id : Nat) :
    List RankedResult → Nat → Except PyErr String
  | [], _ => .ok ""
  | result :: rest, i =>
    let cv_summary := if result.cv_id ≠ 0
      then get_cv_full_summary cvTable result.cv_id user_id
      else Option.none
    match cv_summary with
    | Option.none => formatBlocks cvTable user_id rest (i + 1)
    | some (.dict m) => do
      let block ← format_cv_summary m i
      let tail ← formatBlocks cvTable user_id rest (i + 1)
      pure (block ++ tail)
    | some _ => .error .attributeError

/-- `HRAssistant.build_search_prompt`: optional history context, fixed
instruction preamble with the query, one block per ranked result, and a
closing instruction. -/
def build_search_prompt (cvTable : List CvRow) (st : Assistant)
    (user_query : String) (cv_results : List RankedResult) : Except PyErr String := do
  let ctx := if needs_context user_query
    then build_history_context st.conversation_history else ""
  let blocks ← formatBlocks cvTable st.user_id cv_results 1
  pure (ctx ++
    "You are an HR assistant. Answer this question: " ++ user_query ++
    "\nOnly use relevant candidate data. Ignore irrelevant information.\n\nCANDIDATES:\n" ++
    blocks ++
    "\nProvide direct, focused short answer only.")

/-- `HRAssistant.build_chat_prompt`: history context when non-empty,
then the fixed chat instruction around the query. -/
def build_chat_prompt (st : Assistant) (user_query : String) : String :=
  (if st.conversation_history.isEmpty then ""
   else build_history_context st.conversation_history) ++
  "You are a helpful HR assistant. User said: '" ++ user_query ++
  "'. Give a brief, friendly response."

/-- The `simple_responses` table of `HRAssistant.handle_chat`, in
insertion order. -/
def simple_responses : List (String × String) :=
  [("hi", "Hello! I'm your HR assistant. I can help you find candidates and answer questions about CVs. What would you like to know?"),
   ("hello", "Hi there! How can I help you with candidate profiles today?"),
   ("help", "I can help you find candidates by searching through CVs. Try asking things like 'find Python developers' or 'show me mechanical engineers'."),
   ("thanks", "You're welcome! Feel free to ask about any candidates or profiles."),
   ("thank you", "You're welcome! Feel free to ask about any candidates or profiles.")]

/-- `HRAssistant.handle_chat`: canned responses first, then the
generator with empty-output and exception fallbacks. Total: every
generator failure is caught. -/
def handle_chat (env : OllamaEnv) (st : Assistant) (user_query : String) : String :=
  let query_lower : String := ⟨(pyStrip ⟨pyLower user_query⟩).data⟩
  match simple_responses.find? (fun kv => pyInStr kv.1 query_lower.data) with
  | some kv => kv.2
  | Option.none =>
    match run_llama env (build_chat_prompt st user_query) with
    | .error _ => "I'm here to help! Try asking me about candidates or CVs."
    | .ok response =>
      if pyStrip response = "" then
        "I'm here to help with HR and candidate questions. What would you like to know?"
      else response

/-- The dynamic return value of `HRAssistant.handle_cv_search`: a bare
string on the no-result and fallback paths, a `(response, cv_results)`
tuple on success. -/
inductive SearchOut where
  | str (s : String)
  | pair (response : String) (cv_results : List RankedResult)
deriving DecidableEq

/-- `HRAssistant.handle_cv_search`: extract the count, search, and
either return a fixed no-matches string, or build the prompt (errors
propagate) and call the generator with empty-output and exception
fallbacks. Note the asymmetric returns: strings on all fallback paths,
a tuple only on success. -/
def handle_cv_search (env : OllamaEnv) (senv : SearchEnv) (embTable : List EmbRow)
    (cvTable : List CvRow) (st : Assistant) (user_query : String) :
    Except PyErr SearchOut :=
  let top_k := extract_cv_count user_query
  let cv_results := search_user_cvs senv st.user_id user_query top_k embTable
  if cv_results.isEmpty then
    .ok (.str "I couldn't find any relevant CVs for your query.")
  else
    match build_search_prompt cvTable st user_query cv_results with
    | .error e => .error e
    | .ok prompt =>
      match run_llama env prompt with
      | .error _ => .ok (.str "Sorry, I encountered an error processing your request.")
      | .ok response =>
        if pyStrip response = "" then
          .ok (.str "I found the profiles but couldn't generate a response. Please try rephrasing your query.")
        else
          .ok (.pair response cv_results)

/-- The observable outcome of one `process_query` call: the returned
response, the updated assistant state, the chat record saved to the
database, and (ghost fields, for stating the properties) the computed
intent, the `top_k` used for retrieval, and the ranked results. -/
structure PQOut where
  response : String
  assistant : Assistant
  savedChat : Option ChatRecord
  intent : Option Bool
  count : Option Nat
  ranked : Option (List RankedResult)
deriving DecidableEq

/-- `HRAssistant.process_query`: empty-query guard, then intent routing.
The search branch unpacks `handle_cv_search`'s return as a 2-tuple
(`response, cv_results = ...`); when it is one of the fallback strings
(each far from length 2, see `handle_cv_search_str_length`), the unpack
raises `ValueError`, exactly as Python unpacking a string of length ≠ 2
does. -/
def process_query (env : OllamaEnv) (senv : SearchEnv) (embTable : List EmbRow)
    (cvTable : List CvRow) (st : Assistant) (user_query : String) :
    Except PyErr PQOut :=
  if pyStrip user_query = "" then
    .ok ⟨"Please ask me something!", st, Option.none, Option.none, Option.none, Option.none⟩
  else if is_cv_search_query user_query then
    match handle_cv_search env senv embTable cvTable st user_query with
    | .error e => .error e
    | .ok (.str _) => .error .valueError
    | .ok (.pair response cv_results) =>
      let stRec := add_to_history st user_query response (some cv_results)
      .ok ⟨response, stRec.1, some stRec.2, some true,
        some (extract_cv_count user_query), some cv_results⟩
  else
    let response := handle_chat env st user_query
    let stRec := add_to_history st user_query response Option.none
    .ok ⟨response, stRec.1, some stRec.2, some false, Option.none, Option.none⟩

/-!
## Helper lemmas and concrete environments
-/

/-- Every bare string `handle_cv_search` can return is one of three
fixed messages, none of length 2 — so Python's `response, cv_results =
handle_cv_search(...)` unpacking such a string always raises
`ValueError`, which justifies the `.str` case of `process_query`. -/
theorem handle_cv_search_str_length (env : OllamaEnv) (senv : SearchEnv)
    (embTable : List EmbRow) (cvTable : List CvRow) (st : Assistant)
    (user_query : String) (s : String)
    (h : handle_cv_search env senv embTable cvTable st user_query = .ok (.str s)) :
    s.length ≠ 2 := by
  simp only [handle_cv_search] at h
  split at h
  · injection h with h
    injection h with h
    subst h
    decide
  · split at h
    · exact absurd h (by simp)
    · split at h
      · injection h with h
        injection h with h
        subst h
        decide
      · split at h
        · injection h with h
          injection h with h
          subst h
          decide
        · injection h with h
          injection h

/-- A fixed search environment (external embedder and cosine scorer)
used in the concrete scenarios. -/
def senv0 : SearchEnv := ⟨fun _ => [], fun _ _ => 0⟩

/-- An assistant for owner 1 with empty loaded history. -/
def st0 : Assistant := ⟨1, [], 10⟩

/-- Ollama up, model installed, generating a fixed non-empty answer. -/
def envOk : OllamaEnv :=
  ⟨true, ["llama3.2:3b"], fun _ => .resp 200 "" (.val (.dict [("response", .str "fine answer")]))⟩

/-- Ollama whose generate call raises outside the caught classes. -/
def envRaise : OllamaEnv := ⟨true, ["llama3.2:3b"], fun _ => .otherExn "boom"⟩

/-- Ollama generating whitespace-only output. -/
def envEmpty : OllamaEnv :=
  ⟨true, ["llama3.2:3b"], fun _ => .resp 200 "" (.val (.dict [("response", .str "   ")]))⟩

/-- Ollama server down. -/
def envDown : OllamaEnv := ⟨false, [], fun _ => .timeout⟩

/-- One stored embedding row for owner 1. -/
def row1 : EmbRow := ⟨1, 7, "cv.pdf", "Alice", "text about alice", []⟩

/-- A store holding exactly owner 1's single vector. -/
def table1 : List EmbRow := [row1]

/-- `takeLast` of a list no longer than `n` is the whole list. -/
theorem takeLast_of_length_le {l : List α} {n : Nat} (h : l.length ≤ n) :
    takeLast n l = l := by
  unfold takeLast
  rw [Nat.sub_eq_zero_of_le h, List.drop_zero]

/-- `takeLast` returns at most `n` elements. -/
theorem length_takeLast_le (l : List α) (n : Nat) : (takeLast n l).length ≤ n := by
  unfold takeLast
  rw [List.length_drop]
  omega

/-- Stripping an all-whitespace string yields the empty string. -/
theorem pyStrip_eq_empty_of_all_space (s : String)
    (h : ∀ c ∈ s.data, isPySpace c = true) : pyStrip s = "" := by
  unfold pyStrip
  have h1 : s.data.dropWhile isPySpace = [] := by
    have h2 := @List.dropWhile_append_of_pos _ isPySpace s.data [] h
    simpa using h2
  rw [h1]
  rfl

/-- The scenario input for the history property: 11 exchanges. -/
def elevenExchanges : List (String × String) :=
  [("u1", "a1"), ("u2", "a2"), ("u3", "a3"), ("u4", "a4"), ("u5", "a5"),
   ("u6", "a6"), ("u7", "a7"), ("u8", "a8"), ("u9", "a9"), ("u10", "a10"),
   ("u11", "a11")]

/-- The history after appending the 11 exchanges sequentially with the
default `max_history_length = 10`, starting from an empty history. -/
def elevenFold : List Turn :=
  elevenExchanges.foldl (fun h p => add_to_history_mem 10 h p.1 p.2) []

/-- **C4**: for every positive `N = max_history_length` the in-memory
history never exceeds `2 * N` entries after any append, the kept entries
are exactly the most recent ones (FIFO eviction of the oldest turns),
and 11 sequential exchanges under the default `N = 10` leave exactly 20
turns with the oldest exchange evicted first. -/
theorem history_cap_and_fifo (N : Nat) (h : List Turn) (u a : String) (hN : 0 < N) :
    ((add_to_history_mem N h u a).length ≤ 2 * N ∧
      add_to_history_mem N h u a =
        takeLast (2 * N) (h ++ [⟨.user, u⟩, ⟨.assistant, a⟩])) ∧
    (elevenFold.length = 20 ∧ elevenFold.head? = some ⟨.user, "u2"⟩) := by
  refine ⟨?_, by decide, by decide⟩
  unfold add_to_history_mem pySliceLast
  have h2N : ¬ N * 2 = 0 := by omega
  by_cases hlen : N * 2 < (h ++ [(⟨.user, u⟩ : Turn), ⟨.assistant, a⟩]).length
  · rw [if_pos hlen, if_neg h2N, Nat.mul_comm N 2]
    exact ⟨length_takeLast_le _ _, rfl⟩
  · rw [if_neg hlen]
    have hle : (h ++ [(⟨.user, u⟩ : Turn), ⟨.assistant, a⟩]).length ≤ 2 * N := by omega
    exact ⟨hle, (takeLast_of_length_le hle).symm⟩

/-- **C4 witness**: the cap and FIFO shape at a concrete input. -/
theorem history_cap_and_fifo_witness :
    ((add_to_history_mem 10 [] "hi" "hello" ).length ≤ 2 * 10 ∧
      add_to_history_mem 10 [] "hi" "hello" =
        takeLast (2 * 10) ([] ++ [⟨.user, "hi"⟩, ⟨.assistant, "hello"⟩])) ∧
    (elevenFold.length = 20 ∧ elevenFold.head? = some ⟨.user, "u2"⟩) :=
  history_cap_and_fifo 10 [] "hi" "hello" (by decide)

/-- **C10**: a whitespace-only query short-circuits `process_query` to
the fixed prompt-for-input message: the returned state is unchanged (no
history append), no intent is classified, no retrieval count or ranked
results are produced, and the outcome does not depend on the generator
or store environments (they are universally quantified and absent from
the right-hand side). -/
theorem empty_query_short_circuit (env : OllamaEnv) (senv : SearchEnv)
    (embTable : List EmbRow) (cvTable : List CvRow) (st : Assistant) (q : String)
    (hq : ∀ c ∈ q.data, isPySpace c = true) :
    process_query env senv embTable cvTable st q =
      .ok ⟨"Please ask me something!", st, Option.none, Option.none,
        Option.none, Option.none⟩ := by
  unfold process_query
  rw [if_pos (pyStrip_eq_empty_of_all_space q hq)]

/-- **C10 witness**: the guard at the concrete query `" \t "`, with the
server down and the store empty. -/
theorem empty_query_short_circuit_witness :
    process_query envDown senv0 [] [] st0 " \t " =
      .ok ⟨"Please ask me something!", st0, Option.none, Option.none,
        Option.none, Option.none⟩ :=
  empty_query_short_circuit envDown senv0 [] [] st0 " \t " (by decide)

/-- **C1**: the code bug. For an owner with zero stored vectors and a
search-intent query, `handle_cv_search` does produce the fixed
no-matches string, but `process_query` unpacks that string as a
`(response, cv_results)` tuple and raises `ValueError`: the caller never
receives the no-matches response, and nothing is appended to history. -/
theorem zero_results_crash :
    handle_cv_search envOk senv0 [] [] st0 "find python developers" =
      .ok (.str "I couldn't find any relevant CVs for your query.") ∧
    process_query envOk senv0 [] [] st0 "find python developers" =
      .error .valueError :=
  ⟨rfl, rfl⟩

/-- **C2**: the code bug. On the chat path the generator fallbacks work
(last two conjuncts), but on the search path both the generator-error
apology and the empty-output fallback are plain strings that
`process_query` then unpacks as a tuple, raising `ValueError`: the
orchestration crashes on generator failure instead of returning the
fixed messages. -/
theorem generator_fallback_crash :
    handle_cv_search envRaise senv0 table1 [] st0 "find python developers" =
      .ok (.str "Sorry, I encountered an error processing your request.") ∧
    process_query envRaise senv0 table1 [] st0 "find python developers" =
      .error .valueError ∧
    handle_cv_search envEmpty senv0 table1 [] st0 "find python developers" =
      .ok (.str "I found the profiles but couldn't generate a response. Please try rephrasing your query.") ∧
    process_query envEmpty senv0 table1 [] st0 "find python developers" =
      .error .valueError ∧
    (process_query envRaise senv0 table1 [] st0 "how are you?").map (fun o => o.response) =
      .ok "I'm here to help! Try asking me about candidates or CVs." ∧
    (process_query envEmpty senv0 table1 [] st0 "how are you?").map (fun o => o.response) =
      .ok "I'm here to help with HR and candidate questions. What would you like to know?" :=
  ⟨rfl, rfl, rfl, rfl, rfl, rfl⟩

/-- **C9**: `run_llama` is total over its failure modes. Whenever the
server is unreachable, the model is missing, the request times out or
fails, the status is non-200, or the body is malformed JSON, it returns
an ordinary string beginning with `"Error:"` rather than raising. -/
theorem run_llama_error_totality (env : OllamaEnv) (prompt model : String)
    (hfail : env.available = false ∨
      check_model_available env model = false ∨
      env.gen prompt = .timeout ∨
      (∃ m, env.gen prompt = .reqExn m) ∨
      (∃ status text body, env.gen prompt = .resp status text body ∧ status ≠ 200) ∨
      (∃ text, env.gen prompt = .resp 200 text .malformed)) :
    ∃ rest, run_llama env prompt model = .ok ("Error:" ++ rest) := by
  unfold run_llama
  cases hav : env.available with
  | false =>
    exact ⟨" Ollama server is not running. Please start Ollama first.", by simp⟩
  | true =>
    cases hmod : check_model_available env model with
    | false =>
      refine ⟨" Model '" ++ model ++ "' not found. Available models: " ++
        pyListRepr env.models, congrArg Except.ok (String.ext ?_)⟩
      simp only [String.data_append, List.append_assoc]
      rfl
    | true =>
      simp only [Bool.not_true, Bool.false_eq_true, if_false]
      unfold OllamaClient.generate
      rcases hfail with h | h | h | ⟨m, h⟩ | ⟨status, text, body, h, hne⟩ | ⟨text, h⟩
      · rw [hav] at h
        exact absurd h (by simp)
      · rw [hmod] at h
        exact absurd h (by simp)
      · simp only [h]
        exact ⟨" Request timed out (5 minutes)", rfl⟩
      · simp only [h]
        refine ⟨" Network request failed - " ++ m, congrArg Except.ok (String.ext ?_)⟩
        simp only [String.data_append, List.append_assoc]
        rfl
      · simp only [h]
        rw [if_neg hne]
        refine ⟨" HTTP " ++ toString status ++ " - " ++ text,
          congrArg Except.ok (String.ext ?_)⟩
        simp only [String.data_append, List.append_assoc]
        rfl
      · simp only [h, if_pos]
        exact ⟨" Invalid JSON response from Ollama", rfl⟩

/-- **C9 witness**: with the server down, `run_llama` answers with an
`"Error:"`-prefixed string. -/
theorem run_llama_error_totality_witness :
    ∃ rest, run_llama envDown "hello" "llama3.2:3b" = .ok ("Error:" ++ rest) :=
  run_llama_error_totality envDown "hello" "llama3.2:3b" (Or.inl rfl)

/-- **C6**: the ranked result list is at most `top_k` long and at most
as long as the candidate set, its similarity scores are non-increasing,
when fewer than (or exactly) `top_k` candidates exist it is a
permutation of all their scored records, and an empty candidate set
yields `[]`. -/
theorem rank_bounded_sorted_total (senv : SearchEnv) (user_id : Nat)
    (query : String) (top_k : Nat) (table : List EmbRow) :
    (search_user_cvs senv user_id query top_k table).length ≤ top_k ∧
    (search_user_cvs senv user_id query top_k table).length ≤
      (get_user_embeddings user_id table).length ∧
    (search_user_cvs senv user_id query top_k table).Pairwise
      (fun a b => b.similarity ≤ a.similarity) ∧
    ((get_user_embeddings user_id table).length ≤ top_k →
      (search_user_cvs senv user_id query top_k table).Perm
        ((get_user_embeddings user_id table).map (mkResult senv query))) ∧
    (get_user_embeddings user_id table = [] →
      search_user_cvs senv user_id query top_k table = []) := by
  simp only [search_user_cvs]
  by_cases hemp : (get_user_embeddings user_id table).isEmpty
  · rw [if_pos hemp]
    rw [List.isEmpty_iff] at hemp
    simp [hemp]
  · rw [if_neg hemp]
    have hperm :
        (List.insertionSort simGE ((get_user_embeddings user_id table).map (mkResult senv query))).Perm
          ((get_user_embeddings user_id table).map (mkResult senv query)) :=
      List.perm_insertionSort simGE _
    have hlen :
        (List.insertionSort simGE ((get_user_embeddings user_id table).map (mkResult senv query))).length =
          (get_user_embeddings user_id table).length := by
      rw [hperm.length_eq, List.length_map]
    refine ⟨?_, ?_, ?_, ?_, ?_⟩
    · rw [List.length_take]
      exact Nat.min_le_left _ _
    · rw [List.length_take, hlen]
      exact Nat.min_le_right _ _
    · exact (List.sorted_insertionSort simGE _).sublist (List.take_sublist _ _)
    · intro hk
      rw [List.take_of_length_le (by omega)]
      exact hperm
    · intro h0
      rw [List.isEmpty_iff] at hemp
      exact absurd h0 hemp

/-- **C6 witness**: at a one-row store with `top_k = 5`, the ranked
output is a permutation of the whole scored candidate set. -/
theorem rank_bounded_sorted_total_witness :
    (search_user_cvs senv0 1 "find devs" 5 table1).Perm
      ((get_user_embeddings 1 table1).map (mkResult senv0 "find devs")) :=
  (rank_bounded_sorted_total senv0 1 "find devs" 5 table1).2.2.2.1 (by decide)

/-- `find?` with a conjunctive predicate factors through `filter` on
one conjunct. -/
theorem find?_filter_and (A B : α → Bool) (l : List α) :
    l.find? (fun r => A r && B r) = (l.filter B).find? (fun r => A r && B r) := by
  induction l with
  | nil => rfl
  | cons x xs ih =>
    cases hB : B x with
    | true =>
      rw [List.filter_cons_of_pos hB]
      cases hA : A x with
      | true => simp [List.find?_cons, hA, hB]
      | false => simp [List.find?_cons, hA, hB, ih]
    | false =>
      rw [List.filter_cons_of_neg (by simp [hB])]
      simp [List.find?_cons, hB, ih]

/-- **C7**: owner isolation. Every search result arises from a stored
row of the same owner; search results depend only on the owner's slice
of the store (two-run noninterference), so inserting another owner's
row never changes them; and retrievable summaries likewise depend only
on the owner's slice of the `cvs` table. -/
theorem owner_isolation (senv : SearchEnv) (user_id : Nat) (query : String)
    (top_k : Nat) (table : List EmbRow) :
    (∀ res ∈ search_user_cvs senv user_id query top_k table,
      ∃ row ∈ table, row.user_id = user_id ∧ res = mkResult senv query row) ∧
    (∀ table' : List EmbRow,
      get_user_embeddings user_id table = get_user_embeddings user_id table' →
      search_user_cvs senv user_id query top_k table =
        search_user_cvs senv user_id query top_k table') ∧
    (∀ row : EmbRow, row.user_id ≠ user_id →
      search_user_cvs senv user_id query top_k (row :: table) =
        search_user_cvs senv user_id query top_k table) ∧
    (∀ (cvTable cvTable' : List CvRow) (cv_id : Nat),
      cvTable.filter (fun r => r.user_id == user_id) =
        cvTable'.filter (fun r => r.user_id == user_id) →
      get_cv_full_summary cvTable cv_id user_id =
        get_cv_full_summary cvTable' cv_id user_id) := by
  refine ⟨?_, ?_, ?_, ?_⟩
  · intro res hres
    simp only [search_user_cvs] at hres
    split at hres
    · exact absurd hres (List.not_mem_nil res)
    · have h1 : res ∈ List.insertionSort simGE
          ((get_user_embeddings user_id table).map (mkResult senv query)) :=
        List.mem_of_mem_take hres
      have h2 : res ∈ (get_user_embeddings user_id table).map (mkResult senv query) :=
        (List.perm_insertionSort simGE _).mem_iff.mp h1
      obtain ⟨row, hrow, hmk⟩ := List.mem_map.mp h2
      obtain ⟨hmem, huid⟩ := List.mem_filter.mp hrow
      exact ⟨row, hmem, by simpa using huid, hmk.symm⟩
  · intro table' h
    simp only [search_user_cvs]
    rw [h]
  · intro row hne
    have h : get_user_embeddings user_id (row :: table) =
        get_user_embeddings user_id table := by
      unfold get_user_embeddings
      rw [List.filter_cons_of_neg (by simpa using hne)]
    simp only [search_user_cvs]
    rw [h]
  · intro cvTable cvTable' cv_id h
    unfold get_cv_full_summary get_cv_by_id
    rw [find?_filter_and (fun r => r.id == cv_id) (fun r => r.user_id == user_id) cvTable,
      find?_filter_and (fun r => r.id == cv_id) (fun r => r.user_id == user_id) cvTable', h]

/-- **C7 witness**: inserting another owner's row leaves owner 1's
search results unchanged. -/
theorem owner_isolation_witness :
    search_user_cvs senv0 1 "find devs" 3 (⟨2, 9, "other.pdf", "Bob", "bob text", []⟩ :: table1) =
      search_user_cvs senv0 1 "find devs" 3 table1 :=
  (owner_isolation senv0 1 "find devs" 3 table1).2.2.1
    ⟨2, 9, "other.pdf", "Bob", "bob text", []⟩ (by decide)

/-- On the successful search path, the tuple's second component is
exactly the ranked result list computed from the owner's slice of the
store — independent of the generator environment and of the history. -/
theorem handle_cv_search_pair_inv (env : OllamaEnv) (senv : SearchEnv)
    (embTable : List EmbRow) (cvTable : List CvRow) (st : Assistant)
    (q r : String) (res : List RankedResult)
    (h : handle_cv_search env senv embTable cvTable st q = .ok (.pair r res)) :
    res = search_user_cvs senv st.user_id q (extract_cv_count q) embTable := by
  simp only [handle_cv_search] at h
  split at h
  · exact absurd h (by simp)
  · split at h
    · exact absurd h (by simp)
    · split at h
      · exact absurd h (by simp)
      · split at h
        · exact absurd h (by simp)
        · injection h with h
          injection h with h1 h2
          exact h2.symm

/-- **C8**: two `process_query` runs with the same owner and query text
against an unchanged store (same `SearchEnv` and tables) that both
return normally agree on the intent classification, the result count
and the ranked-result ordering, whatever the generator environments and
conversation histories of the two runs were — only the response text
may differ. -/
theorem process_query_idempotent_components (env1 env2 : OllamaEnv)
    (senv : SearchEnv) (embTable : List EmbRow) (cvTable : List CvRow)
    (st1 st2 : Assistant) (q : String) (o1 o2 : PQOut)
    (huid : st1.user_id = st2.user_id)
    (h1 : process_query env1 senv embTable cvTable st1 q = .ok o1)
    (h2 : process_query env2 senv embTable cvTable st2 q = .ok o2) :
    o1.intent = o2.intent ∧ o1.count = o2.count ∧ o1.ranked = o2.ranked := by
  unfold process_query at h1 h2
  by_cases hempty : pyStrip q = ""
  · rw [if_pos hempty] at h1 h2
    injection h1 with h1
    injection h2 with h2
    subst h1
    subst h2
    exact ⟨rfl, rfl, rfl⟩
  · rw [if_neg hempty] at h1 h2
    by_cases hsearch : is_cv_search_query q
    · rw [if_pos hsearch] at h1 h2
      split at h1
      · exact absurd h1 (by simp)
      · exact absurd h1 (by simp)
      · next r1 res1 heq1 =>
        split at h2
        · exact absurd h2 (by simp)
        · exact absurd h2 (by simp)
        · next r2 res2 heq2 =>
          injection h1 with h1
          injection h2 with h2
          subst h1
          subst h2
          refine ⟨rfl, rfl, ?_⟩
          have e1 := handle_cv_search_pair_inv env1 senv embTable cvTable st1 q r1 res1 heq1
          have e2 := handle_cv_search_pair_inv env2 senv embTable cvTable st2 q r2 res2 heq2
          show some res1 = some res2
          rw [e1, e2, huid]
    · rw [if_neg hsearch] at h1 h2
      simp only [] at h1 h2
      injection h1 with h1
      injection h2 with h2
      subst h1
      subst h2
      exact ⟨rfl, rfl, rfl⟩

/-- Ollama environment giving a different (still non-empty) answer,
for the idempotence witness' second run. -/
def envOk2 : OllamaEnv :=
  ⟨true, ["llama3.2:3b"], fun _ => .resp 200 "" (.val (.dict [("response", .str "another answer")]))⟩

/-- An assistant for owner 1 whose history already holds one exchange. -/
def st0b : Assistant := ⟨1, [⟨.user, "earlier question"⟩, ⟨.assistant, "earlier answer"⟩], 10⟩

/-- Outcome of the first witness run. -/
def pqOutRun1 : PQOut :=
  ⟨"fine answer",
   ⟨1, [⟨.user, "find python developers"⟩, ⟨.assistant, "fine answer"⟩], 10⟩,
   some ⟨"find python developers", "cv_search", "fine answer",
     some [mkResult senv0 "find python developers" row1]⟩,
   some true, some 4, some [mkResult senv0 "find python developers" row1]⟩

/-- Outcome of the second witness run (different generator, grown history). -/
def pqOutRun2 : PQOut :=
  ⟨"another answer",
   ⟨1, [⟨.user, "earlier question"⟩, ⟨.assistant, "earlier answer"⟩,
     ⟨.user, "find python developers"⟩, ⟨.assistant, "another answer"⟩], 10⟩,
   some ⟨"find python developers", "cv_search", "another answer",
     some [mkResult senv0 "find python developers" row1]⟩,
   some true, some 4, some [mkResult senv0 "find python developers" row1]⟩

/-- **C8 witness**: two concrete runs against the same store, with
different generator behaviour and different starting histories, agree
on intent, count and ranked results (their responses differ). -/
theorem process_query_idempotent_components_witness :
    pqOutRun1.intent = pqOutRun2.intent ∧ pqOutRun1.count = pqOutRun2.count ∧
      pqOutRun1.ranked = pqOutRun2.ranked :=
  process_query_idempotent_components envOk envOk2 senv0 table1 [] st0 st0b
    "find python developers" pqOutRun1 pqOutRun2 rfl (by rfl) (by rfl)

/-!
## C3: totality of prompt composition

The claim quantifies over every well-formed-JSON-like record. The code
in fact raises `TypeError` on some such records (see
`format_cv_summary_raises`), so the totality property is proved for
records whose present fields follow the summary schema (`wfSummary`).
-/

/-- Is this value a string? -/
def isStrVal : PyVal → Bool
  | .str _ => true
  | _ => false

/-- A sub-field value the formatter can append safely: a string, or
falsy (never appended). -/
def strOrFalsy (v : PyVal) : Bool :=
  isStrVal v || !pyTruthy v

/-- An education entry the formatter handles without raising. -/
def eduEntryOk : PyVal → Bool
  | .dict m => strOrFalsy (pyGetD m "Degree" (.str "")) &&
      strOrFalsy (pyGetD m "School" (.str ""))
  | _ => true

/-- An experience entry the formatter handles without raising: either
both `Role` and `Company` truthy (f-string stringification, always
safe) or both string-or-falsy. -/
def expEntryOk : PyVal → Bool
  | .dict m =>
    (pyTruthy (pyGetD m "Role" (.str "")) && pyTruthy (pyGetD m "Company" (.str ""))) ||
    (strOrFalsy (pyGetD m "Role" (.str "")) && strOrFalsy (pyGetD m "Company" (.str "")))
  | _ => true

/-- A truthy Education field value that formats safely. -/
def fieldEduOk (v : PyVal) : Bool :=
  !pyTruthy v ||
  (match v with
   | .list l => (l.take 2).all eduEntryOk
   | .str _ => true
   | _ => false)

/-- A truthy Experience field value that formats safely. -/
def fieldExpOk (v : PyVal) : Bool :=
  !pyTruthy v ||
  (match v with
   | .list l => (l.take 2).all expEntryOk
   | .str _ => true
   | _ => false)

/-- A Skills field value that formats safely. -/
def fieldSkillsOk (v : PyVal) : Bool :=
  !pyTruthy v ||
  (match v with
   | .list l => (l.take 10).all isStrVal
   | _ => true)

/-- A summary record whose present fields follow the summary schema. A
record missing every optional field satisfies this trivially. -/
def wfSummary (cv_summary : List (String × PyVal)) : Bool :=
  fieldEduOk (pyGetD cv_summary "Education" PyVal.none) &&
  fieldExpOk (pyGetD cv_summary "Experience" PyVal.none) &&
  fieldSkillsOk (pyGetD cv_summary "Skills" PyVal.none)

/-- A truthy string-or-falsy value is a string. -/
theorem str_of_strOrFalsy_truthy (v : PyVal) (h1 : strOrFalsy v = true)
    (h2 : pyTruthy v = true) : ∃ s, v = .str s := by
  cases v with
  | str s => exact ⟨s, rfl⟩
  | none => simp [pyTruthy] at h2
  | bool b => simp [strOrFalsy, isStrVal, h2] at h1
  | int n => simp [strOrFalsy, isStrVal, h2] at h1
  | list items => simp [strOrFalsy, isStrVal, h2] at h1
  | dict entries => simp [strOrFalsy, isStrVal, h2] at h1

/-- Every value the Education loop collects is a string, when every
entry is schema-conforming. -/
theorem eduListOf_all_str (items : List PyVal)
    (h : ∀ e ∈ items, eduEntryOk e = true) :
    ∀ v ∈ eduListOf items, ∃ s, v = .str s := by
  induction items with
  | nil => intro v hv; exact absurd hv (List.not_mem_nil v)
  | cons e rest ih =>
    intro v hv
    have hrest : ∀ x ∈ rest, eduEntryOk x = true :=
      fun x hx => h x (List.mem_cons_of_mem e hx)
    cases e with
    | dict m =>
      have he : eduEntryOk (.dict m) = true := h _ (List.mem_cons_self _ rest)
      simp only [eduEntryOk, Bool.and_eq_true] at he
      simp only [eduListOf] at hv
      by_cases hd : pyTruthy (pyGetD m "Degree" (.str "")) = true
      · rw [if_pos hd] at hv
        rcases List.mem_cons.mp hv with hveq | hv'
        · subst hveq
          exact str_of_strOrFalsy_truthy _ he.1 hd
        · exact ih hrest v hv'
      · rw [if_neg hd] at hv
        by_cases hs : pyTruthy (pyGetD m "School" (.str "")) = true
        · rw [if_pos hs] at hv
          rcases List.mem_cons.mp hv with hveq | hv'
          · subst hveq
            exact str_of_strOrFalsy_truthy _ he.2 hs
          · exact ih hrest v hv'
        · rw [if_neg hs] at hv
          exact ih hrest v hv
    | none => exact ih hrest v (by simpa [eduListOf] using hv)
    | bool b => exact ih hrest v (by simpa [eduListOf] using hv)
    | int n => exact ih hrest v (by simpa [eduListOf] using hv)
    | str s => exact ih hrest v (by simpa [eduListOf] using hv)
    | list l => exact ih hrest v (by simpa [eduListOf] using hv)

/-- Every value the Experience loop collects is a string, when every
entry is schema-conforming. -/
theorem expListOf_all_str (items : List PyVal)
    (h : ∀ e ∈ items, expEntryOk e = true) :
    ∀ v ∈ expListOf items, ∃ s, v = .str s := by
  induction items with
  | nil => intro v hv; exact absurd hv (List.not_mem_nil v)
  | cons e rest ih =>
    intro v hv
    have hrest : ∀ x ∈ rest, expEntryOk x = true :=
      fun x hx => h x (List.mem_cons_of_mem e hx)
    cases e with
    | dict m =>
      have he : expEntryOk (.dict m) = true := h _ (List.mem_cons_self _ rest)
      simp only [expEntryOk] at he
      simp only [expListOf] at hv
      by_cases hrc : (pyTruthy (pyGetD m "Role" (.str "")) &&
          pyTruthy (pyGetD m "Company" (.str ""))) = true
      · rw [if_pos hrc] at hv
        rcases List.mem_cons.mp hv with hveq | hv'
        · exact ⟨_, hveq⟩
        · exact ih hrest v hv'
      · rw [if_neg hrc] at hv
        have he2 : strOrFalsy (pyGetD m "Role" (.str "")) = true ∧
            strOrFalsy (pyGetD m "Company" (.str "")) = true := by
          rcases Bool.or_eq_true _ _ |>.mp he with h' | h'
          · exact absurd h' hrc
          · exact Bool.and_eq_true _ _ |>.mp h'
        by_cases hr : pyTruthy (pyGetD m "Role" (.str "")) = true
        · rw [if_pos hr] at hv
          rcases List.mem_cons.mp hv with hveq | hv'
          · subst hveq
            exact str_of_strOrFalsy_truthy _ he2.1 hr
          · exact ih hrest v hv'
        · rw [if_neg hr] at hv
          by_cases hc : pyTruthy (pyGetD m "Company" (.str "")) = true
          · rw [if_pos hc] at hv
            rcases List.mem_cons.mp hv with hveq | hv'
            · subst hveq
              exact str_of_strOrFalsy_truthy _ he2.2 hc
            · exact ih hrest v hv'
          · rw [if_neg hc] at hv
            exact ih hrest v hv
    | none => exact ih hrest v (by simpa [expListOf] using hv)
    | bool b => exact ih hrest v (by simpa [expListOf] using hv)
    | int n => exact ih hrest v (by simpa [expListOf] using hv)
    | str s => exact ih hrest v (by simpa [expListOf] using hv)
    | list l => exact ih hrest v (by simpa [expListOf] using hv)

/-- The collection loops skip non-dict entries entirely. -/
theorem eduListOf_of_no_dict (items : List PyVal)
    (h : ∀ e ∈ items, ∀ m, e ≠ .dict m) : eduListOf items = [] := by
  induction items with
  | nil => rfl
  | cons e rest ih =>
    have hrest : ∀ x ∈ rest, ∀ m, x ≠ .dict m :=
      fun x hx => h x (List.mem_cons_of_mem e hx)
    cases e with
    | dict m => exact absurd rfl (h _ (List.mem_cons_self _ rest) m)
    | none => simpa [eduListOf] using ih hrest
    | bool b => simpa [eduListOf] using ih hrest
    | int n => simpa [eduListOf] using ih hrest
    | str s => simpa [eduListOf] using ih hrest
    | list l => simpa [eduListOf] using ih hrest

/-- The Experience loop skips non-dict entries entirely. -/
theorem expListOf_of_no_dict (items : List PyVal)
    (h : ∀ e ∈ items, ∀ m, e ≠ .dict m) : expListOf items = [] := by
  induction items with
  | nil => rfl
  | cons e rest ih =>
    have hrest : ∀ x ∈ rest, ∀ m, x ≠ .dict m :=
      fun x hx => h x (List.mem_cons_of_mem e hx)
    cases e with
    | dict m => exact absurd rfl (h _ (List.mem_cons_self _ rest) m)
    | none => simpa [expListOf] using ih hrest
    | bool b => simpa [expListOf] using ih hrest
    | int n => simpa [expListOf] using ih hrest
    | str s => simpa [expListOf] using ih hrest
    | list l => simpa [expListOf] using ih hrest

/-- Joining a list of strings never raises. -/
theorem pyJoin_ok_of_strs (sep : String) (items : List PyVal)
    (h : ∀ v ∈ items, ∃ s, v = .str s) : ∃ out, pyJoin sep items = .ok out := by
  induction items with
  | nil => exact ⟨"", rfl⟩
  | cons v rest ih =>
    obtain ⟨s, rfl⟩ := h v (List.mem_cons_self v rest)
    obtain ⟨out, hout⟩ := ih (fun x hx => h x (List.mem_cons_of_mem _ hx))
    exact ⟨if rest.isEmpty then s else s ++ sep ++ out, by simp [pyJoin, hout]⟩

@[simp] theorem except_ok_bind (a : α) (f : α → Except ε β) :
    (Except.ok a : Except ε α) >>= f = f a := rfl

@[simp] theorem except_error_bind (e : ε) (f : α → Except ε β) :
    (Except.error e : Except ε α) >>= f = .error e := rfl

@[simp] theorem except_pure_eq_ok (a : α) : (pure a : Except ε α) = .ok a := rfl

@[simp] theorem except_map_ok (f : α → β) (a : α) :
    f <$> (Except.ok a : Except ε α) = .ok (f a) := rfl

@[simp] theorem except_map_error (f : α → β) (e : ε) :
    f <$> (Except.error e : Except ε α) = .error e := rfl

/-- A schema-conforming Education field never makes its section raise. -/
theorem eduSection_ok (v : PyVal) (lines : List String) (h : fieldEduOk v = true) :
    ∃ out, eduSection v lines = .ok out := by
  by_cases ht : pyTruthy v = true
  · simp only [fieldEduOk, ht, Bool.not_true, Bool.false_or] at h
    cases v with
    | list l =>
      have hall : ∀ e ∈ l.take 2, eduEntryOk e = true := List.all_eq_true.mp h
      by_cases he : (eduListOf (l.take 2)).isEmpty
      · exact ⟨lines, by simp [eduSection, ht, pySliceTake, he]⟩
      · obtain ⟨j, hj⟩ := pyJoin_ok_of_strs " | " _ (eduListOf_all_str _ hall)
        exact ⟨lines ++ ["Education: " ++ j],
          by simp [eduSection, ht, pySliceTake, he, hj]⟩
    | str s =>
      have hnd : ∀ e ∈ (s.data.take 2).map (fun c => PyVal.str (String.singleton c)),
          ∀ m, e ≠ .dict m := by
        intro e he m
        obtain ⟨c, _, rfl⟩ := List.mem_map.mp he
        simp
      have h0 : eduListOf ((s.data.take 2).map (fun c => PyVal.str (String.singleton c))) = [] :=
        eduListOf_of_no_dict _ hnd
      simp only [List.map_take] at h0
      exact ⟨lines, by simp [eduSection, ht, pySliceTake, h0]⟩
    | none => simp at h
    | bool b => simp at h
    | int n => simp at h
    | dict m => simp at h
  · exact ⟨lines, by simp [eduSection, ht]⟩

/-- A schema-conforming Experience field never makes its section raise. -/
theorem expSection_ok (v : PyVal) (lines : List String) (h : fieldExpOk v = true) :
    ∃ out, expSection v lines = .ok out := by
  by_cases ht : pyTruthy v = true
  · simp only [fieldExpOk, ht, Bool.not_true, Bool.false_or] at h
    cases v with
    | list l =>
      have hall : ∀ e ∈ l.take 2, expEntryOk e = true := List.all_eq_true.mp h
      by_cases he : (expListOf (l.take 2)).isEmpty
      · exact ⟨lines, by simp [expSection, ht, pySliceTake, he]⟩
      · obtain ⟨j, hj⟩ := pyJoin_ok_of_strs " | " _ (expListOf_all_str _ hall)
        exact ⟨lines ++ ["Experience: " ++ j],
          by simp [expSection, ht, pySliceTake, he, hj]⟩
    | str s =>
      have hnd : ∀ e ∈ (s.data.take 2).map (fun c => PyVal.str (String.singleton c)),
          ∀ m, e ≠ .dict m := by
        intro e he m
        obtain ⟨c, _, rfl⟩ := List.mem_map.mp he
        simp
      have h0 : expListOf ((s.data.take 2).map (fun c => PyVal.str (String.singleton c))) = [] :=
        expListOf_of_no_dict _ hnd
      simp only [List.map_take] at h0
      exact ⟨lines, by simp [expSection, ht, pySliceTake, h0]⟩
    | none => simp at h
    | bool b => simp at h
    | int n => simp at h
    | dict m => simp at h
  · exact ⟨lines, by simp [expSection, ht]⟩

/-- A schema-conforming Skills field never makes its section raise. -/
theorem skillsSection_ok (v : PyVal) (lines : List String) (h : fieldSkillsOk v = true) :
    ∃ out, skillsSection v lines = .ok out := by
  by_cases ht : pyTruthy v = true
  · simp only [fieldSkillsOk, ht, Bool.not_true, Bool.false_or] at h
    cases v with
    | list l =>
      have hall : ∀ e ∈ l.take 10, isStrVal e = true := List.all_eq_true.mp h
      have hstr : ∀ e ∈ l.take 10, ∃ s, e = .str s := by
        intro e he
        cases e <;> first
          | exact ⟨_, rfl⟩
          | exact absurd (hall _ he) (by simp [isStrVal])
      obtain ⟨j, hj⟩ := pyJoin_ok_of_strs ", " _ hstr
      exact ⟨lines ++ ["Skills: " ++ j], by simp [skillsSection, ht, hj]⟩
    | none => exact ⟨lines, by simp [skillsSection, ht]⟩
    | bool b => exact ⟨lines, by simp [skillsSection, ht]⟩
    | int n => exact ⟨lines, by simp [skillsSection, ht]⟩
    | str s => exact ⟨lines, by simp [skillsSection, ht]⟩
    | dict m => exact ⟨lines, by simp [skillsSection, ht]⟩
  · exact ⟨lines, by simp [skillsSection, ht]⟩

/-- **C3 counterexample**: the claim is false as stated. The record
`{"Education": {"Degree": "BS"}}` is a well-formed JSON record (its
Education field is an object rather than an array), yet formatting it
raises `TypeError` — Python slices the dict with `[:2]`. -/
theorem format_cv_summary_raises :
    format_cv_summary [("Education", .dict [("Degree", .str "BS")])] 1 =
      .error .typeError := rfl

/-- **C3 (amended)**: prompt composition is total on schema-conforming
records: formatting never raises when the present Education/Experience
fields are arrays (of entries with string-or-absent sub-fields) or
strings and Skills lists hold strings; in particular a record missing
every optional field always formats; and every successfully composed
search prompt contains the literal query text. -/
theorem compose_total_on_schema :
    (∀ (cv_summary : List (String × PyVal)) (rank : Nat), wfSummary cv_summary = true →
      ∃ s, format_cv_summary cv_summary rank = .ok s) ∧
    (∀ rank : Nat, format_cv_summary [] rank =
      .ok ("CANDIDATE " ++ toString rank ++ ":" ++ "\n")) ∧
    (∀ (cvTable : List CvRow) (st : Assistant) (user_query : String)
      (cv_results : List RankedResult) (p : String),
      build_search_prompt cvTable st user_query cv_results = .ok p →
      ∃ a b, p.data = a ++ user_query.data ++ b) := by
  refine ⟨?_, ?_, ?_⟩
  · intro d rank hwf
    simp only [wfSummary, Bool.and_eq_true] at hwf
    obtain ⟨⟨h1, h2⟩, h3⟩ := hwf
    simp only [format_cv_summary]
    obtain ⟨l2, hl2⟩ := eduSection_ok (pyGetD d "Education" PyVal.none)
      (if pyTruthy (pyGetD d "Name" PyVal.none) = true
        then ["CANDIDATE " ++ toString rank ++ ":"] ++
          ["Name: " ++ pyStr (pyGetD d "Name" PyVal.none)]
        else ["CANDIDATE " ++ toString rank ++ ":"]) h1
    rw [hl2]
    simp only [except_ok_bind]
    obtain ⟨l3, hl3⟩ := expSection_ok (pyGetD d "Experience" PyVal.none) l2 h2
    rw [hl3]
    simp only [except_ok_bind]
    obtain ⟨l4, hl4⟩ := skillsSection_ok (pyGetD d "Skills" PyVal.none) l3 h3
    rw [hl4]
    exact ⟨String.intercalate "\n" l4 ++ "\n", rfl⟩
  · intro rank
    rfl
  · intro cvTable st user_query cv_results p h
    simp only [build_search_prompt] at h
    cases hb : formatBlocks cvTable st.user_id cv_results 1 with
    | error e =>
      rw [hb] at h
      exact absurd h (by simp)
    | ok blocks =>
      rw [hb] at h
      simp only [except_ok_bind, except_pure_eq_ok] at h
      injection h with h
      subst h
      refine ⟨(if needs_context user_query = true
          then build_history_context st.conversation_history else "").data ++
        "You are an HR assistant. Answer this question: ".data,
        "\nOnly use relevant candidate data. Ignore irrelevant information.\n\nCANDIDATES:\n".data ++
          blocks.data ++ "\nProvide direct, focused short answer only.".data, ?_⟩
      simp only [String.data_append, List.append_assoc]

/-- A sample schema-conforming record for the composition witness. -/
def sampleSummary : List (String × PyVal) :=
  [("Name", .str "Alice"),
   ("Education", .list [.dict [("Degree", .str "BS"), ("School", .str "MIT")]]),
   ("Experience", .list [.dict [("Role", .str "Dev"), ("Company", .str "ACME")]]),
   ("Skills", .list [.str "python", .str "lean"])]

/-- **C3 witness**: the amended totality at a concrete record. -/
theorem compose_total_on_schema_witness :
    ∃ s, format_cv_summary sampleSummary 1 = .ok s :=
  compose_total_on_schema.1 sampleSummary 1 (by decide)
theorem char_toNat_ofNat_of_valid {n : Nat} (h : n < 55296) : (Char.ofNat n).toNat = n := by
  rw [Char.ofNat, dif_pos (Or.inl h)]
  rfl

theorem isDigit_eq_toNat (c : Char) :
    c.isDigit = (decide (48 ≤ c.toNat) && decide (c.toNat ≤ 57)) := rfl

theorem isAlphanum_eq_toNat (c : Char) :
    c.isAlphanum = ((decide (65 ≤ c.toNat) && decide (c.toNat ≤ 90)) ||
      (decide (97 ≤ c.toNat) && decide (c.toNat ≤ 122)) ||
      (decide (48 ≤ c.toNat) && decide (c.toNat ≤ 57))) := rfl

theorem isWordChar_toLower (c : Char) : isWordChar c.toLower = isWordChar c := by
  simp only [Char.toLower]
  by_cases h : Char.toNat c ≥ 65 ∧ Char.toNat c ≤ 90
  · rw [if_pos h]
    have h32 : (Char.ofNat (Char.toNat c + 32)).toNat = Char.toNat c + 32 :=
      char_toNat_ofNat_of_valid (by omega)
    unfold isWordChar
    rw [isAlphanum_eq_toNat, isAlphanum_eq_toNat, h32]
    have h1 : (decide (97 ≤ Char.toNat c + 32) && decide (Char.toNat c + 32 ≤ 122)) = true := by
      simp only [Bool.and_eq_true, decide_eq_true_eq]
      omega
    have h2 : (decide (65 ≤ Char.toNat c) && decide (Char.toNat c ≤ 90)) = true := by
      simp only [Bool.and_eq_true, decide_eq_true_eq]
      omega
    simp [h1, h2]
  · rw [if_neg h]

theorem isDigit_toLower (c : Char) : c.toLower.isDigit = c.isDigit := by
  simp only [Char.toLower]
  by_cases h : Char.toNat c ≥ 65 ∧ Char.toNat c ≤ 90
  · rw [if_pos h]
    have h32 : (Char.ofNat (Char.toNat c + 32)).toNat = Char.toNat c + 32 :=
      char_toNat_ofNat_of_valid (by omega)
    rw [isDigit_eq_toNat, isDigit_eq_toNat, h32]
    have h1 : decide (Char.toNat c + 32 ≤ 57) = false := by
      simp only [decide_eq_false_iff_not]
      omega
    have h2 : decide (Char.toNat c ≤ 57) = false := by
      simp only [decide_eq_false_iff_not]
      omega
    rw [h1, h2, Bool.and_false, Bool.and_false]
  · rw [if_neg h]

theorem toLower_eq_of_isDigit (c : Char) (h : c.isDigit = true) : c.toLower = c := by
  rw [isDigit_eq_toNat] at h
  simp only [Bool.and_eq_true, decide_eq_true_eq] at h
  simp only [Char.toLower]
  rw [if_neg (by omega)]

/-- A digit is a word character. -/
theorem isWordChar_of_isDigit (c : Char) (h : c.isDigit = true) :
    isWordChar c = true := by
  simp [isWordChar, Char.isAlphanum, h]

/-!
## C5: explicit integer literals take priority

Declarative (regex-independent) notions of "the query text contains an
explicit integer literal", with the boundary flavour of each call site,
and the equivalence of the two scanners with them.
-/

/-- A word boundary sits just before a digit at the decomposition point:
either the prefix is empty and the character before the scanned text is
a boundary, or the prefix ends in a non-word character. -/
def PreBoundary (prev : Option Char) (pre : List Char) : Prop :=
  (pre = [] ∧ prevBoundary prev = true) ∨
  (∃ pre' p, pre = pre' ++ [p] ∧ isWordChar p = false)

/-- A standalone digit run inside `s` (relative to the character before
`s`): a non-empty all-digit segment with a word boundary before it and
whose following character, if any, fails `P` (instantiated with
`isWordChar` for `\b(\d+)\b` and with `Char.isDigit` — run maximality —
for `\b(\d+)`), with value `n`. -/
def BLitFrom (P : Char → Bool) (prev : Option Char) (s : List Char) (n : Nat) : Prop :=
  ∃ pre ds post, s = pre ++ ds ++ post ∧ ds ≠ [] ∧ (∀ c ∈ ds, c.isDigit = true) ∧
    PreBoundary prev pre ∧
    (post = [] ∨ ∃ d post', post = d :: post' ∧ P d = false) ∧
    digitsToNat ds = n

/-- The query text contains the standalone integer literal `n`
(both-sided word boundaries, the notion matched by `\b(\d+)\b`). -/
def StrictIntLiteralIn (s : List Char) (n : Nat) : Prop :=
  BLitFrom isWordChar Option.none s n

/-- The query text contains a digit run starting at a word boundary
with value `n` (the notion matched by `\b(\d+)`; the run is maximal). -/
def LooseIntLiteralIn (s : List Char) (n : Nat) : Prop :=
  BLitFrom Char.isDigit Option.none s n

/-- Soundness of the `\b(\d+)\b` scanner: a found value is the value of
a standalone (both-sided boundary) digit run. -/
theorem findIntBB_sound (s : List Char) : ∀ (prev : Option Char) (n : Nat),
    findIntBB prev s = some n → BLitFrom isWordChar prev s n := by
  induction s with
  | nil => intro prev n h; exact absurd h (by simp [findIntBB])
  | cons c rest ih =>
    intro prev n h
    simp only [findIntBB] at h
    split at h
    · next hcond =>
      injection h with h
      simp only [Bool.and_eq_true] at hcond
      obtain ⟨⟨hprev, hdig⟩, hafter⟩ := hcond
      refine ⟨[], c :: rest.takeWhile Char.isDigit, rest.dropWhile Char.isDigit,
        by simp [List.takeWhile_append_dropWhile], by simp, ?_,
        Or.inl ⟨rfl, hprev⟩, ?_, h⟩
      · intro x hx
        rcases List.mem_cons.mp hx with rfl | hx'
        · exact hdig
        · exact List.mem_takeWhile_imp hx'
      · cases hdw : rest.dropWhile Char.isDigit with
        | nil => exact Or.inl rfl
        | cons d post' =>
          refine Or.inr ⟨d, post', rfl, ?_⟩
          rw [hdw] at hafter
          simpa [afterBoundary] using hafter
    · next hcond =>
      obtain ⟨pre, ds, post, heq, hne, hdig, hpb, hpost, hval⟩ := ih (some c) n h
      refine ⟨c :: pre, ds, post, by simp [heq], hne, hdig, ?_, hpost, hval⟩
      rcases hpb with ⟨hpre, hprev⟩ | ⟨pre', p, hp, hw⟩
      · subst hpre
        exact Or.inr ⟨[], c, rfl, by simpa [prevBoundary] using hprev⟩
      · subst hp
        exact Or.inr ⟨c :: pre', p, rfl, hw⟩

/-- Completeness of the `\b(\d+)\b` scanner: when the text holds a
standalone digit run, the scanner finds a match. -/
theorem findIntBB_isSome (s : List Char) : ∀ prev : Option Char,
    (∃ n, BLitFrom isWordChar prev s n) → (findIntBB prev s).isSome = true := by
  induction s with
  | nil =>
    intro prev h
    obtain ⟨n, pre, ds, post, heq, hne, -, -, -, -⟩ := h
    obtain ⟨h2, -⟩ := List.append_eq_nil.mp heq.symm
    exact absurd (List.append_eq_nil.mp h2).2 hne
  | cons c rest ih =>
    intro prev h
    simp only [findIntBB]
    split
    · rfl
    · next hcond =>
      apply ih (some c)
      obtain ⟨n, pre, ds, post, heq, hne, hdig, hpb, hpost, hval⟩ := h
      cases pre with
      | nil =>
        exfalso
        apply hcond
        rcases hpb with ⟨-, hprev⟩ | ⟨pre', p, hp, -⟩
        · cases ds with
          | nil => exact absurd rfl hne
          | cons d ds' =>
            simp only [List.nil_append, List.cons_append, List.cons.injEq] at heq
            obtain ⟨rfl, hrest⟩ := heq
            have hdigc : c.isDigit = true := hdig c (List.mem_cons_self _ _)
            have hds' : ∀ x ∈ ds', Char.isDigit x = true :=
              fun x hx => hdig x (List.mem_cons_of_mem _ hx)
            have hdw : rest.dropWhile Char.isDigit = post.dropWhile Char.isDigit := by
              rw [hrest]
              exact List.dropWhile_append_of_pos hds'
            have hafter : afterBoundary (rest.dropWhile Char.isDigit) = true := by
              rw [hdw]
              rcases hpost with rfl | ⟨d0, post', rfl, hw0⟩
              · rfl
              · have hd0 : d0.isDigit = false := by
                  cases hd : d0.isDigit
                  · rfl
                  · exact absurd (isWordChar_of_isDigit d0 hd) (by simp [hw0])
                rw [List.dropWhile_cons_of_neg (by simp [hd0])]
                simp [afterBoundary, hw0]
            rw [hprev, hdigc, hafter]
            rfl
        · simp at hp
      | cons p0 pre' =>
        simp only [List.cons_append, List.cons.injEq] at heq
        obtain ⟨rfl, hrest⟩ := heq
        refine ⟨n, pre', ds, post, hrest, hne, hdig, ?_, hpost, hval⟩
        rcases hpb with ⟨hpre, -⟩ | ⟨pre'', p, hp, hw⟩
        · exact absurd hpre (List.cons_ne_nil _ _)
        · cases pre'' with
          | nil =>
            simp only [List.nil_append, List.cons.injEq] at hp
            obtain ⟨rfl, rfl⟩ := hp
            exact Or.inl ⟨rfl, by simp [prevBoundary, hw]⟩
          | cons q pre₃ =>
            simp only [List.cons_append, List.cons.injEq] at hp
            obtain ⟨rfl, rfl⟩ := hp
            exact Or.inr ⟨pre₃, p, rfl, hw⟩

/-- Soundness of the `\b(\d+)` scanner: a found value is the value of a
maximal digit run starting at a word boundary. -/
theorem findIntB_sound (s : List Char) : ∀ (prev : Option Char) (n : Nat),
    findIntB prev s = some n → BLitFrom Char.isDigit prev s n := by
  induction s with
  | nil => intro prev n h; exact absurd h (by simp [findIntB])
  | cons c rest ih =>
    intro prev n h
    simp only [findIntB] at h
    split at h
    · next hcond =>
      injection h with h
      simp only [Bool.and_eq_true] at hcond
      obtain ⟨hprev, hdig⟩ := hcond
      refine ⟨[], c :: rest.takeWhile Char.isDigit, rest.dropWhile Char.isDigit,
        by simp [List.takeWhile_append_dropWhile], by simp, ?_,
        Or.inl ⟨rfl, hprev⟩, ?_, h⟩
      · intro x hx
        rcases List.mem_cons.mp hx with rfl | hx'
        · exact hdig
        · exact List.mem_takeWhile_imp hx'
      · cases hdw : rest.dropWhile Char.isDigit with
        | nil => exact Or.inl rfl
        | cons d post' =>
          refine Or.inr ⟨d, post', rfl, ?_⟩
          have hh := List.head?_dropWhile_not Char.isDigit rest
          rw [hdw] at hh
          simpa using hh
    · next hcond =>
      obtain ⟨pre, ds, post, heq, hne, hdig, hpb, hpost, hval⟩ := ih (some c) n h
      refine ⟨c :: pre, ds, post, by simp [heq], hne, hdig, ?_, hpost, hval⟩
      rcases hpb with ⟨hpre, hprev⟩ | ⟨pre', p, hp, hw⟩
      · subst hpre
        exact Or.inr ⟨[], c, rfl, by simpa [prevBoundary] using hprev⟩
      · subst hp
        exact Or.inr ⟨c :: pre', p, rfl, hw⟩

/-- Completeness of the `\b(\d+)` scanner: a standalone digit run makes
it match (its boundary requirement is weaker than the standalone one). -/
theorem findIntB_isSome (s : List Char) : ∀ prev : Option Char,
    (∃ n, BLitFrom isWordChar prev s n) → (findIntB prev s).isSome = true := by
  induction s with
  | nil =>
    intro prev h
    obtain ⟨n, pre, ds, post, heq, hne, -, -, -, -⟩ := h
    obtain ⟨h2, -⟩ := List.append_eq_nil.mp heq.symm
    exact absurd (List.append_eq_nil.mp h2).2 hne
  | cons c rest ih =>
    intro prev h
    simp only [findIntB]
    split
    · rfl
    · next hcond =>
      apply ih (some c)
      obtain ⟨n, pre, ds, post, heq, hne, hdig, hpb, hpost, hval⟩ := h
      cases pre with
      | nil =>
        exfalso
        apply hcond
        rcases hpb with ⟨-, hprev⟩ | ⟨pre', p, hp, -⟩
        · cases ds with
          | nil => exact absurd rfl hne
          | cons d ds' =>
            simp only [List.nil_append, List.cons_append, List.cons.injEq] at heq
            obtain ⟨rfl, -⟩ := heq
            rw [hprev, hdig c (List.mem_cons_self _ _)]
            rfl
        · simp at hp
      | cons p0 pre' =>
        simp only [List.cons_append, List.cons.injEq] at heq
        obtain ⟨rfl, hrest⟩ := heq
        refine ⟨n, pre', ds, post, hrest, hne, hdig, ?_, hpost, hval⟩
        rcases hpb with ⟨hpre, -⟩ | ⟨pre'', p, hp, hw⟩
        · exact absurd hpre (List.cons_ne_nil _ _)
        · cases pre'' with
          | nil =>
            simp only [List.nil_append, List.cons.injEq] at hp
            obtain ⟨rfl, rfl⟩ := hp
            exact Or.inl ⟨rfl, by simp [prevBoundary, hw]⟩
          | cons q pre₃ =>
            simp only [List.cons_append, List.cons.injEq] at hp
            obtain ⟨rfl, rfl⟩ := hp
            exact Or.inr ⟨pre₃, p, rfl, hw⟩

/-- Lowercasing fixes digit runs. -/
theorem map_toLower_eq_self_of_digits (l : List Char)
    (h : ∀ c ∈ l, c.isDigit = true) : l.map Char.toLower = l := by
  induction l with
  | nil => rfl
  | cons c rest ih =>
    rw [List.map_cons, toLower_eq_of_isDigit c (h c (List.mem_cons_self _ _)),
      ih (fun x hx => h x (List.mem_cons_of_mem _ hx))]

/-- Lowercasing the text (as `extract_cv_count` does before matching)
neither creates nor destroys standalone digit runs, for any trailing
test `P` that is invariant under lowercasing. -/
theorem blitFrom_map_toLower_iff (P : Char → Bool) (hP : ∀ c, P c.toLower = P c)
    (s : List Char) (n : Nat) :
    BLitFrom P Option.none (s.map Char.toLower) n ↔ BLitFrom P Option.none s n := by
  constructor
  · rintro ⟨pre, ds, post, heq, hne, hdig, hpb, hpost, hval⟩
    obtain ⟨lab, lc, hs, hab, hc⟩ := List.map_eq_append_iff.mp heq
    obtain ⟨la, lb, hab2, ha, hb⟩ := List.map_eq_append_iff.mp hab
    have hlbdig : ∀ c ∈ lb, c.isDigit = true := by
      intro c hc'
      have hd : (Char.toLower c).isDigit = true := by
        exact hdig _ (hb ▸ List.mem_map_of_mem _ hc')
      rwa [isDigit_toLower] at hd
    have hlb : lb = ds := by
      rw [← hb, map_toLower_eq_self_of_digits lb hlbdig]
    refine ⟨la, lb, lc, by rw [hs, hab2], by simpa [hlb] using hne, hlbdig, ?_, ?_, ?_⟩
    · rcases hpb with ⟨hpre, -⟩ | ⟨pre', p, hp, hw⟩
      · rw [hpre] at ha
        rw [List.map_eq_nil_iff.mp ha]
        exact Or.inl ⟨rfl, rfl⟩
      · have hla : la ≠ [] := by
          intro h0
          rw [h0] at ha
          rw [hp] at ha
          exact absurd ha.symm (by simp)
        have hlast : la.getLast? = some (la.getLast hla) :=
          List.getLast?_eq_getLast la hla
        have hpl : Char.toLower (la.getLast hla) = p := by
          have h1 : (la.map Char.toLower).getLast? = some p := by
            rw [ha, hp]
            exact List.getLast?_concat _
          rw [List.getLast?_map, hlast] at h1
          simpa using h1
        refine Or.inr ⟨la.dropLast, la.getLast hla,
          (List.dropLast_append_getLast hla).symm, ?_⟩
        rw [← isWordChar_toLower, hpl, hw]
    · rcases hpost with hpost0 | ⟨d, post', hp2, hw⟩
      · rw [hpost0] at hc
        exact Or.inl (List.map_eq_nil_iff.mp hc)
      · cases lc with
        | nil =>
          rw [hp2] at hc
          exact absurd hc (by simp)
        | cons c0 lc' =>
          rw [hp2, List.map_cons] at hc
          obtain ⟨hc0, -⟩ := List.cons.injEq _ _ _ _ ▸ hc
          refine Or.inr ⟨c0, lc', rfl, ?_⟩
          rw [← hP, hc0, hw]
    · rw [hlb]
      exact hval
  · rintro ⟨pre, ds, post, heq, hne, hdig, hpb, hpost, hval⟩
    refine ⟨pre.map Char.toLower, ds, post.map Char.toLower, ?_, hne, hdig, ?_, ?_, hval⟩
    · rw [heq, List.map_append, List.map_append,
        map_toLower_eq_self_of_digits ds hdig]
    · rcases hpb with ⟨hpre, -⟩ | ⟨pre', p, hp, hw⟩
      · rw [hpre]
        exact Or.inl ⟨rfl, rfl⟩
      · refine Or.inr ⟨pre'.map Char.toLower, Char.toLower p, by simp [hp], ?_⟩
        rw [isWordChar_toLower, hw]
    · rcases hpost with hpost0 | ⟨d, post', hp2, hw⟩
      · rw [hpost0]
        exact Or.inl rfl
      · refine Or.inr ⟨Char.toLower d, post'.map Char.toLower, by simp [hp2], ?_⟩
        rw [hP, hw]

/-- **C5**: whenever the query text contains a standalone integer
literal, both count-extraction call sites derive their result from an
explicit integer occurrence in that text, capped at 10 — taking
priority over every keyword default. `extract_cv_count` uses a
standalone (`\b(\d+)\b`) occurrence; `extract_cv_count_from_query`
uses a boundary-started maximal digit run (`\b(\d+)`). -/
theorem extract_cv_count_explicit_int (q : String)
    (h : ∃ n, StrictIntLiteralIn q.data n) :
    (∃ m, StrictIntLiteralIn q.data m ∧ extract_cv_count q = min m 10) ∧
    (∃ m, LooseIntLiteralIn q.data m ∧ extract_cv_count_from_query q = min m 10) := by
  obtain ⟨n, hn⟩ := h
  have hlow : BLitFrom isWordChar Option.none (pyLower q) n := by
    have h1 := (blitFrom_map_toLower_iff isWordChar isWordChar_toLower q.data n).mpr hn
    simpa [pyLower] using h1
  constructor
  · have hsome : (findIntBB Option.none (pyLower q)).isSome = true :=
      findIntBB_isSome (pyLower q) Option.none ⟨n, hlow⟩
    obtain ⟨m, hm⟩ := Option.isSome_iff_exists.mp hsome
    have hsnd := findIntBB_sound (pyLower q) Option.none m hm
    have hq : StrictIntLiteralIn q.data m :=
      (blitFrom_map_toLower_iff isWordChar isWordChar_toLower q.data m).mp
        (by simpa [pyLower] using hsnd)
    refine ⟨m, hq, ?_⟩
    simp only [extract_cv_count, hm]
  · have hsome : (findIntB Option.none (pyLower q)).isSome = true :=
      findIntB_isSome (pyLower q) Option.none ⟨n, hlow⟩
    obtain ⟨m, hm⟩ := Option.isSome_iff_exists.mp hsome
    have hsnd := findIntB_sound (pyLower q) Option.none m hm
    have hq : LooseIntLiteralIn q.data m :=
      (blitFrom_map_toLower_iff Char.isDigit isDigit_toLower q.data m).mp
        (by simpa [pyLower] using hsnd)
    refine ⟨m, hq, ?_⟩
    simp only [extract_cv_count_from_query, hm]

/-- **C5 witness**: the query `"find top 12 developers"` contains the
standalone literal 12, and both call sites return `min 12 10 = 10`
(even though the query also holds the `"top"` keyword). -/
theorem extract_cv_count_explicit_int_witness :
    (∃ m, StrictIntLiteralIn ("find top 12 developers").data m ∧
      extract_cv_count "find top 12 developers" = min m 10) ∧
    (∃ m, LooseIntLiteralIn ("find top 12 developers").data m ∧
      extract_cv_count_from_query "find top 12 developers" = min m 10) :=
  extract_cv_count_explicit_int "find top 12 developers"
    ⟨12, by
      refine ⟨"find top ".data, "12".data, " developers".data, by decide, by decide,
        by decide, Or.inr ⟨"find top".data, ' ', by decide, by decide⟩,
        Or.inr ⟨' ', "developers".data, by decide, by decide⟩, by decide⟩⟩
